import Mathlib

/-!
Verification of the Garage-Manager program (`garage.py`).

The program keeps an in-memory list of `Car` records inside a `Garage` and
persists it to a CSV file through Python's `csv` module.  This file gives a
shallow embedding of the data model and of the operations `Garage.load`,
`Garage.save`, `Garage.add_car` and `Garage.remove_car`, together with the
pieces of the Python runtime they rely on: the `csv` writer and reader for the
default (excel) dialect, `int()` applied to a string, `str()` applied to an
integer, and `list.pop` with Python index semantics.  Files are represented by
their character contents (`List Char`); a missing file is `none`.
-/

/-- Character class used by the csv excel dialect: a field containing a
delimiter, a quote character or a line-terminator character must be quoted. -/
def special (c : Char) : Bool := c = ',' || c = '"' || c = '\r' || c = '\n'

/-- Does a field require quoting under QUOTE_MINIMAL? -/
def needsQuote (l : List Char) : Bool := l.any special

/-- Doubling of embedded quote characters performed by the csv writer
(`doublequote = True`). -/
def escQ : List Char → List Char
  | [] => []
  | c :: cs => if c = '"' then '"' :: '"' :: escQ cs else c :: escQ cs

/-- Encoding of one field by `csv.writer` (QUOTE_MINIMAL).  A field is quoted
when it contains a special character, or when it is the only field of the
record and is empty (so that the record is not written as a blank line). -/
def encodeField (single : Bool) (s : String) : List Char :=
  if needsQuote s.data || (single && s.data.isEmpty) then
    '"' :: (escQ s.data ++ ['"'])
  else s.data

/-- Comma-join of encoded fields, as `csv.writer` does. -/
def joinComma : List (List Char) → List Char
  | [] => []
  | [f] => f
  | f :: g :: fs => f ++ ',' :: joinComma (g :: fs)

/-- One record written by `csv.writer.writerow`: the comma-join of the encoded
fields followed by the default line terminator `\r\n`. -/
def encodeRow (fields : List String) : List Char :=
  joinComma (fields.map (encodeField (fields.length == 1))) ++ ['\r', '\n']

/-- Decimal digit character. -/
def digitChar (n : Nat) : Char := Char.ofNat (48 + n)

/-- Fuel-driven decimal rendering of a natural number, most significant digit
first (the fuel only bounds the recursion depth). -/
def natDigitsAux : Nat → Nat → List Char
  | 0, _ => []
  | fuel + 1, n =>
    if n < 10 then [digitChar n] else natDigitsAux fuel (n / 10) ++ [digitChar (n % 10)]

/-- Decimal rendering of a natural number, e.g. `natDigits 255 = ['2','5','5']`. -/
def natDigits (n : Nat) : List Char := natDigitsAux (n + 1) n

/-- Characters of Python `str()` applied to an integer. -/
def intChars (y : Int) : List Char :=
  if y < 0 then '-' :: natDigits y.natAbs else natDigits y.toNat

/-- Python `str()` applied to an integer (this is what `csv.writer` writes for
the non-string `year` field). -/
def pyStrInt (y : Int) : String := String.mk (intChars y)

/-- Is `c` an ASCII decimal digit? -/
def isDig (c : Char) : Bool := decide (48 ≤ c.toNat) && decide (c.toNat ≤ 57)

/-- Digit run accepted by Python `int()` after the first digit: further digits,
with single underscores allowed only between digits.  The flag records whether
the previous character was an underscore (an underscore may not follow another
underscore and may not end the sequence). -/
def pyDigitsCore : Bool → List Char → Nat → Option Nat
  | und, [], acc => if und then none else some acc
  | und, c :: cs, acc =>
    if isDig c then pyDigitsCore false cs (acc * 10 + (c.toNat - 48))
    else if c = '_' then
      if und then none else pyDigitsCore true cs acc
    else none

/-- Unsigned digit sequence accepted by Python `int()`: at least one digit,
underscores only between digits. -/
def pyDigits : List Char → Option Nat
  | [] => none
  | c :: cs => if isDig c then pyDigitsCore false cs (c.toNat - 48) else none

/-- ASCII whitespace stripped by Python `int()` from both ends of its input. -/
def isPySpace (c : Char) : Bool :=
  c = ' ' || c = '\t' || c = '\n' || c = '\r' || c = '\x0b' || c = '\x0c'

/-- Strip whitespace from both ends of a character list. -/
def stripEnds (l : List Char) : List Char :=
  ((l.dropWhile isPySpace).reverse.dropWhile isPySpace).reverse

/-- Sign handling of Python `int()` once surrounding whitespace is gone:
an optional single `+` or `-` followed by a digit sequence. -/
def pyIntSigned : List Char → Option Int
  | [] => none
  | c :: cs =>
    if c = '+' then (pyDigits cs).map (fun n : Nat => (n : Int))
    else if c = '-' then (pyDigits cs).map (fun n : Nat => -(n : Int))
    else (pyDigits (c :: cs)).map (fun n : Nat => (n : Int))

/-- Python `int()` applied to the characters of a string: optional surrounding
whitespace, optional sign, then a digit sequence; `none` models `ValueError`. -/
def pyIntChars (l : List Char) : Option Int := pyIntSigned (stripEnds l)

/-- Python `int()` applied to a string. -/
def pyInt (s : String) : Option Int := pyIntChars s.data

/-- Parser states of the csv reader (`_csv.c`): start of a record, just after a
record-terminating `\r` (an immediately following `\n` belongs to the same
line terminator), start of a field, inside an unquoted field, inside a quoted
field, and just after a quote inside a quoted field. -/
inductive CsvSt
  | startRecord
  | afterCR
  | startField
  | inField
  | inQuoted
  | quoteInQuoted
deriving DecidableEq, Repr

/-- The csv reader of the excel dialect (non-strict), run over the whole file
contents.  Arguments: state, remaining input, current field (characters so
far), completed fields of the current record, completed records.  A line
consisting only of a terminator yields an empty record `[]`, exactly as
`csv.reader` does for a blank line. -/
def csvRun : CsvSt → List Char → List Char → List String → List (List String) →
    List (List String)
  | .startRecord, [], _, _, rows => rows
  | .startRecord, c :: cs, _, _, rows =>
    if c = '\n' then csvRun .startRecord cs [] [] (rows ++ [[]])
    else if c = '\r' then csvRun .afterCR cs [] [] (rows ++ [[]])
    else if c = ',' then csvRun .startField cs [] [""] rows
    else if c = '"' then csvRun .inQuoted cs [] [] rows
    else csvRun .inField cs [c] [] rows
  | .afterCR, [], _, _, rows => rows
  | .afterCR, c :: cs, _, _, rows =>
    if c = '\n' then csvRun .startRecord cs [] [] rows
    else if c = '\r' then csvRun .afterCR cs [] [] (rows ++ [[]])
    else if c = ',' then csvRun .startField cs [] [""] rows
    else if c = '"' then csvRun .inQuoted cs [] [] rows
    else csvRun .inField cs [c] [] rows
  | .startField, [], _, row, rows => rows ++ [row ++ [""]]
  | .startField, c :: cs, _, row, rows =>
    if c = '\n' then csvRun .startRecord cs [] [] (rows ++ [row ++ [""]])
    else if c = '\r' then csvRun .afterCR cs [] [] (rows ++ [row ++ [""]])
    else if c = ',' then csvRun .startField cs [] (row ++ [""]) rows
    else if c = '"' then csvRun .inQuoted cs [] row rows
    else csvRun .inField cs [c] row rows
  | .inField, [], fld, row, rows => rows ++ [row ++ [String.mk fld]]
  | .inField, c :: cs, fld, row, rows =>
    if c = '\n' then csvRun .startRecord cs [] [] (rows ++ [row ++ [String.mk fld]])
    else if c = '\r' then csvRun .afterCR cs [] [] (rows ++ [row ++ [String.mk fld]])
    else if c = ',' then csvRun .startField cs [] (row ++ [String.mk fld]) rows
    else csvRun .inField cs (fld ++ [c]) row rows
  | .inQuoted, [], fld, row, rows => rows ++ [row ++ [String.mk fld]]
  | .inQuoted, c :: cs, fld, row, rows =>
    if c = '"' then csvRun .quoteInQuoted cs fld row rows
    else csvRun .inQuoted cs (fld ++ [c]) row rows
  | .quoteInQuoted, [], fld, row, rows => rows ++ [row ++ [String.mk fld]]
  | .quoteInQuoted, c :: cs, fld, row, rows =>
    if c = '"' then csvRun .inQuoted cs (fld ++ ['"']) row rows
    else if c = ',' then csvRun .startField cs [] (row ++ [String.mk fld]) rows
    else if c = '\n' then csvRun .startRecord cs [] [] (rows ++ [row ++ [String.mk fld]])
    else if c = '\r' then csvRun .afterCR cs [] [] (rows ++ [row ++ [String.mk fld]])
    else csvRun .inField cs (fld ++ [c]) row rows

/-- All records produced by `csv.reader` on the given file contents. -/
def csvParse (content : List Char) : List (List String) :=
  csvRun .startRecord content [] [] []

/-- The `Car` value record of `garage.py`: color, year, make, model, the year
stored as an integer. -/
structure Car where
  color : String
  year : Int
  make : String
  model : String
deriving DecidableEq, Repr

/-- Rendering of a car by `Car.__str__`. -/
def carStr (c : Car) : String :=
  c.color ++ " " ++ pyStrInt c.year ++ " " ++ c.make ++ " " ++ c.model

/-- The row written for one car by `Garage.save`: `csv.writer` converts the
integer `year` with `str()`. -/
def carToRow (c : Car) : List String := [c.color, pyStrInt c.year, c.make, c.model]

/-- The header row written by `Garage.save`. -/
def headerRow : List String := ["color", "year", "make", "model"]

/-- The full file contents produced by a successful `Garage.save`: the header
record followed by one record per car, in list order. -/
def saveContent (cars : List Car) : List Char :=
  encodeRow headerRow ++ (cars.map (fun c => encodeRow (carToRow c))).flatten

/-- Construction of a `Car` from one data row in `Garage.load`:
`Car(color=row[0], year=int(row[1]), make=row[2], model=row[3])`.  `none`
models the `IndexError` (fewer than four fields) or `ValueError` (year not a
valid integer) raised there; extra fields beyond the fourth are ignored. -/
def rowToCar (row : List String) : Option Car :=
  match row with
  | c0 :: c1 :: c2 :: c3 :: _ => (pyInt c1).map (fun y => ⟨c0, y, c2, c3⟩)
  | _ => none

/-- The row loop of `Garage.load`: blank rows (`if row:`) are skipped, each
other row is turned into a car appended to the list; `none` models an
exception escaping the loop. -/
def loadRows : List Car → List (List String) → Option (List Car)
  | acc, [] => some acc
  | acc, row :: rest =>
    if row = [] then loadRows acc rest
    else
      match rowToCar row with
      | some c => loadRows (acc ++ [c]) rest
      | none => none

/-- Outcome of `Garage.load`, following the four exits of the source: the
file-not-found early return, the `StopIteration` early return on a file with
no records, the success path (`"Garage loaded successfully."`), and the
`except (IOError, IndexError, ValueError)` handler
(`"Error reading from ..."`). -/
inductive LoadOutcome
  | notFound
  | emptyFile
  | loaded
  | readError
deriving DecidableEq, Repr

/-- The `Garage` of `garage.py`: a list of cars. -/
structure Garage where
  cars : List Car
deriving DecidableEq, Repr

/-- Body of `Garage.load` once the file exists: `next(reader)` drops the first
record (returning early when there is none), the remaining records are folded
by `loadRows` starting from the current in-memory list (the source appends to
`self.cars` without clearing it), and on an exception the list is reset to
empty (`self.cars = []`). -/
def loadContent (g : Garage) (content : List Char) : Garage × LoadOutcome :=
  match csvParse content with
  | [] => (g, .emptyFile)
  | _ :: rows =>
    match loadRows g.cars rows with
    | some cs => (⟨cs⟩, .loaded)
    | none => (⟨[]⟩, .readError)

/-- `Garage.load`: `none` models a path for which `os.path.exists` is false. -/
def Garage.load (g : Garage) (file : Option (List Char)) : Garage × LoadOutcome :=
  match file with
  | none => (g, .notFound)
  | some content => loadContent g content

/-- `Garage.add_car`: append to the end of the list. -/
def Garage.add_car (g : Garage) (c : Car) : Garage := ⟨g.cars ++ [c]⟩

/-- Python index normalisation: a negative index counts from the end. -/
def pyIndex (i : Int) (n : Nat) : Int := if i < 0 then i + n else i

/-- Python `list.pop(i)`: returns the removed element and the remaining list,
or `none` (modelling `IndexError`, which leaves the list unchanged) when the
normalised index is out of range. -/
def pyListPop {α : Type} (l : List α) (i : Int) : Option (α × List α) :=
  if 0 ≤ pyIndex i l.length ∧ pyIndex i l.length < (l.length : Int) then
    match l.get? (pyIndex i l.length).toNat with
    | some a =>
      some (a, l.take (pyIndex i l.length).toNat ++ l.drop ((pyIndex i l.length).toNat + 1))
    | none => none
  else none

/-- `Garage.remove_car`: `self.cars.pop(car_index)`. -/
def Garage.remove_car (g : Garage) (i : Int) : Option (Car × Garage) :=
  (pyListPop g.cars i).map (fun p => (p.1, ⟨p.2⟩))

/-- `Garage.save`: on success (`ioOk = true`) the target file is replaced
wholesale by `saveContent` (mode `'w'`), independently of its prior contents
`_prior`; on an `IOError` the resulting on-disk state is implementation
defined (`failFile`).  In both cases the in-memory list is returned as is:
the method body never assigns to `self.cars`. -/
def Garage.save (g : Garage) (ioOk : Bool) (_prior : Option (List Char))
    (failFile : Option (List Char)) : Garage × Option (List Char) :=
  (g, if ioOk then some (saveContent g.cars) else failFile)

/-- A `Car` object of the running Python program: an identity (address) plus
its field values. -/
structure PyCarObj where
  addr : Nat
  val : Car
deriving DecidableEq, Repr

/-- Python `==` on two `Car` objects.  The class `Car` in `garage.py` defines
no `__eq__`, so equality defaults to `object.__eq__`, i.e. identity. -/
def pyCarEq (a b : PyCarObj) : Bool := a.addr == b.addr

/-- A data row on which the `Car` construction in `Garage.load` raises:
nonblank with fewer than four fields (`IndexError`), or with a second field
that is not a valid integer (`ValueError` from `int(row[1])`). -/
def rowBad : List String → Bool
  | [] => false
  | [_] => true
  | _ :: s :: t => decide (t.length + 2 < 4) || (pyInt s).isNone

/-! ### Small step lemmas for the csv reader -/

theorem string_mk_data (s : String) : String.mk s.data = s := rfl

theorem run_sr_nil (fld : List Char) (row : List String) (rows : List (List String)) :
    csvRun .startRecord [] fld row rows = rows := rfl

theorem run_sr_comma (cs : List Char) (fld : List Char) (row : List String)
    (rows : List (List String)) :
    csvRun .startRecord (',' :: cs) fld row rows = csvRun .startField cs [] [""] rows := rfl

theorem run_sr_quote (cs : List Char) (fld : List Char) (row : List String)
    (rows : List (List String)) :
    csvRun .startRecord ('"' :: cs) fld row rows = csvRun .inQuoted cs [] [] rows := rfl

theorem run_sr_plain (c : Char) (cs : List Char) (fld : List Char) (row : List String)
    (rows : List (List String)) (h1 : c ≠ '\n') (h2 : c ≠ '\r') (h3 : c ≠ ',') (h4 : c ≠ '"') :
    csvRun .startRecord (c :: cs) fld row rows = csvRun .inField cs [c] [] rows := by
  simp only [csvRun]
  rw [if_neg h1, if_neg h2, if_neg h3, if_neg h4]

theorem run_acr_lf (cs : List Char) (fld : List Char) (row : List String)
    (rows : List (List String)) :
    csvRun .afterCR ('\n' :: cs) fld row rows = csvRun .startRecord cs [] [] rows := rfl

theorem run_sf_comma (cs : List Char) (fld : List Char) (row : List String)
    (rows : List (List String)) :
    csvRun .startField (',' :: cs) fld row rows = csvRun .startField cs [] (row ++ [""]) rows :=
  rfl

theorem run_sf_quote (cs : List Char) (fld : List Char) (row : List String)
    (rows : List (List String)) :
    csvRun .startField ('"' :: cs) fld row rows = csvRun .inQuoted cs [] row rows := rfl

theorem run_sf_cr (cs : List Char) (fld : List Char) (row : List String)
    (rows : List (List String)) :
    csvRun .startField ('\r' :: cs) fld row rows =
      csvRun .afterCR cs [] [] (rows ++ [row ++ [""]]) := rfl

theorem run_sf_plain (c : Char) (cs : List Char) (fld : List Char) (row : List String)
    (rows : List (List String)) (h1 : c ≠ '\n') (h2 : c ≠ '\r') (h3 : c ≠ ',') (h4 : c ≠ '"') :
    csvRun .startField (c :: cs) fld row rows = csvRun .inField cs [c] row rows := by
  simp only [csvRun]
  rw [if_neg h1, if_neg h2, if_neg h3, if_neg h4]

theorem run_if_cr (cs : List Char) (fld : List Char) (row : List String)
    (rows : List (List String)) :
    csvRun .inField ('\r' :: cs) fld row rows =
      csvRun .afterCR cs [] [] (rows ++ [row ++ [String.mk fld]]) := rfl

theorem run_if_comma (cs : List Char) (fld : List Char) (row : List String)
    (rows : List (List String)) :
    csvRun .inField (',' :: cs) fld row rows =
      csvRun .startField cs [] (row ++ [String.mk fld]) rows := rfl

theorem run_if_other (c : Char) (cs : List Char) (fld : List Char) (row : List String)
    (rows : List (List String)) (h1 : c ≠ '\n') (h2 : c ≠ '\r') (h3 : c ≠ ',') :
    csvRun .inField (c :: cs) fld row rows = csvRun .inField cs (fld ++ [c]) row rows := by
  simp only [csvRun]
  rw [if_neg h1, if_neg h2, if_neg h3]

theorem run_iq_quote (cs : List Char) (fld : List Char) (row : List String)
    (rows : List (List String)) :
    csvRun .inQuoted ('"' :: cs) fld row rows = csvRun .quoteInQuoted cs fld row rows := rfl

theorem run_iq_other (c : Char) (cs : List Char) (fld : List Char) (row : List String)
    (rows : List (List String)) (h : c ≠ '"') :
    csvRun .inQuoted (c :: cs) fld row rows = csvRun .inQuoted cs (fld ++ [c]) row rows := by
  simp only [csvRun]
  rw [if_neg h]

theorem run_qq_quote (cs : List Char) (fld : List Char) (row : List String)
    (rows : List (List String)) :
    csvRun .quoteInQuoted ('"' :: cs) fld row rows =
      csvRun .inQuoted cs (fld ++ ['"']) row rows := rfl

theorem run_qq_comma (cs : List Char) (fld : List Char) (row : List String)
    (rows : List (List String)) :
    csvRun .quoteInQuoted (',' :: cs) fld row rows =
      csvRun .startField cs [] (row ++ [String.mk fld]) rows := rfl

theorem run_qq_cr (cs : List Char) (fld : List Char) (row : List String)
    (rows : List (List String)) :
    csvRun .quoteInQuoted ('\r' :: cs) fld row rows =
      csvRun .afterCR cs [] [] (rows ++ [row ++ [String.mk fld]]) := rfl

/-! ### Round trip of the csv writer through the csv reader -/

theorem special_eq_false {c : Char} (h : special c = false) :
    c ≠ ',' ∧ c ≠ '"' ∧ c ≠ '\r' ∧ c ≠ '\n' := by
  simp only [special, Bool.or_eq_false_iff, decide_eq_false_iff_not] at h
  exact ⟨h.1.1.1, h.1.1.2, h.1.2, h.2⟩

theorem esc_run (s : List Char) : ∀ (fld : List Char) (row : List String)
    (rows : List (List String)) (rest : List Char),
    csvRun .inQuoted (escQ s ++ '"' :: rest) fld row rows =
      csvRun .quoteInQuoted rest (fld ++ s) row rows := by
  induction s with
  | nil =>
    intro fld row rows rest
    simp only [escQ, List.nil_append, List.append_nil]
    exact run_iq_quote rest fld row rows
  | cons c cs ih =>
    intro fld row rows rest
    by_cases hc : c = '"'
    · subst hc
      have he : escQ ('"' :: cs) = '"' :: '"' :: escQ cs := by simp [escQ]
      rw [he]
      simp only [List.cons_append]
      rw [run_iq_quote, run_qq_quote, ih]
      simp
    · simp only [escQ, if_neg hc, List.cons_append]
      rw [run_iq_other c _ _ _ _ hc, ih]
      simp

theorem plain_run (s : List Char) (h : ∀ c ∈ s, special c = false) :
    ∀ (fld : List Char) (row : List String) (rows : List (List String)) (rest : List Char),
    csvRun .inField (s ++ rest) fld row rows = csvRun .inField rest (fld ++ s) row rows := by
  induction s with
  | nil => intro fld row rows rest; simp
  | cons c cs ih =>
    intro fld row rows rest
    obtain ⟨h3, _, h2, h1⟩ := special_eq_false (h c (List.mem_cons_self c cs))
    simp only [List.cons_append]
    rw [run_if_other c _ _ _ _ h1 h2 h3,
      ih (fun d hd => h d (List.mem_cons_of_mem c hd))]
    simp

theorem string_of_data_nil {f : String} (h : f.data = []) : f = "" := by
  rw [← string_mk_data f, h]

theorem all_not_special {l : List Char} (h : l.any special = false) :
    ∀ c ∈ l, special c = false := by
  intro c hc
  refine Bool.eq_false_iff.mpr (fun ht => ?_)
  have ht2 := List.any_eq_true.mpr ⟨c, hc, ht⟩
  rw [h] at ht2
  exact Bool.false_ne_true ht2

theorem field_run_cr (f : String) (b : Bool) (rest : List Char) (row : List String)
    (rows : List (List String)) :
    csvRun .startField (encodeField b f ++ '\r' :: rest) [] row rows =
      csvRun .afterCR rest [] [] (rows ++ [row ++ [f]]) := by
  by_cases hq : (needsQuote f.data || (b && f.data.isEmpty)) = true
  · rw [show encodeField b f = '"' :: (escQ f.data ++ ['"']) from by
      rw [encodeField, if_pos hq]]
    rw [show ('"' :: (escQ f.data ++ ['"'])) ++ '\r' :: rest =
      '"' :: (escQ f.data ++ '"' :: '\r' :: rest) from by simp]
    rw [run_sf_quote, esc_run, run_qq_cr]
    simp [string_mk_data]
  · have hq2 : (needsQuote f.data || (b && f.data.isEmpty)) = false :=
      Bool.eq_false_iff.mpr hq
    obtain ⟨hnq, _⟩ := Bool.or_eq_false_iff.mp hq2
    rw [show encodeField b f = f.data from by rw [encodeField, if_neg hq]]
    cases hd : f.data with
    | nil =>
      rw [List.nil_append, run_sf_cr, string_of_data_nil hd]
    | cons c cs =>
      rw [hd] at hnq
      have hc : special c = false := all_not_special hnq c (List.mem_cons_self c cs)
      have hcs : ∀ d ∈ cs, special d = false := fun d hd' =>
        all_not_special hnq d (List.mem_cons_of_mem c hd')
      obtain ⟨h3, h4, h2, h1⟩ := special_eq_false hc
      rw [List.cons_append, run_sf_plain c _ _ _ _ h1 h2 h3 h4,
        plain_run cs hcs, run_if_cr]
      have hmk : String.mk ([c] ++ cs) = f := by
        rw [List.singleton_append, ← hd, string_mk_data]
      rw [hmk]

theorem field_run_comma (f : String) (b : Bool) (rest : List Char) (row : List String)
    (rows : List (List String)) :
    csvRun .startField (encodeField b f ++ ',' :: rest) [] row rows =
      csvRun .startField rest [] (row ++ [f]) rows := by
  by_cases hq : (needsQuote f.data || (b && f.data.isEmpty)) = true
  · rw [show encodeField b f = '"' :: (escQ f.data ++ ['"']) from by
      rw [encodeField, if_pos hq]]
    rw [show ('"' :: (escQ f.data ++ ['"'])) ++ ',' :: rest =
      '"' :: (escQ f.data ++ '"' :: ',' :: rest) from by simp]
    rw [run_sf_quote, esc_run, run_qq_comma]
    simp [string_mk_data]
  · have hq2 : (needsQuote f.data || (b && f.data.isEmpty)) = false :=
      Bool.eq_false_iff.mpr hq
    obtain ⟨hnq, _⟩ := Bool.or_eq_false_iff.mp hq2
    rw [show encodeField b f = f.data from by rw [encodeField, if_neg hq]]
    cases hd : f.data with
    | nil =>
      rw [List.nil_append, run_sf_comma, string_of_data_nil hd]
    | cons c cs =>
      rw [hd] at hnq
      have hc : special c = false := all_not_special hnq c (List.mem_cons_self c cs)
      have hcs : ∀ d ∈ cs, special d = false := fun d hd' =>
        all_not_special hnq d (List.mem_cons_of_mem c hd')
      obtain ⟨h3, h4, h2, h1⟩ := special_eq_false hc
      rw [List.cons_append, run_sf_plain c _ _ _ _ h1 h2 h3 h4,
        plain_run cs hcs, run_if_comma]
      have hmk : String.mk ([c] ++ cs) = f := by
        rw [List.singleton_append, ← hd, string_mk_data]
      rw [hmk]

theorem fields_run (fs : List String) : ∀ (b : Bool) (row : List String)
    (rows : List (List String)) (rest : List Char), fs ≠ [] →
    csvRun .startField (joinComma (fs.map (encodeField b)) ++ '\r' :: rest) [] row rows =
      csvRun .afterCR rest [] [] (rows ++ [row ++ fs]) := by
  induction fs with
  | nil => intro b row rows rest h; exact absurd rfl h
  | cons f fs ih =>
    intro b row rows rest _
    cases fs with
    | nil =>
      simp only [List.map_cons, List.map_nil, joinComma]
      exact field_run_cr f b rest row rows
    | cons g gs =>
      simp only [List.map_cons, joinComma, List.append_assoc, List.cons_append]
      rw [field_run_comma f b _ row rows]
      rw [show (encodeField b g :: gs.map (encodeField b)) =
        ((g :: gs).map (encodeField b)) from by simp]
      rw [ih b (row ++ [f]) rows rest (by simp)]
      simp

theorem sr_eq_sf (c : Char) (cs : List Char) (fld : List Char) (row : List String)
    (rows : List (List String)) (h1 : c ≠ '\n') (h2 : c ≠ '\r') :
    csvRun .startRecord (c :: cs) fld row rows = csvRun .startField (c :: cs) [] [] rows := by
  by_cases h3 : c = ','
  · subst h3; rw [run_sr_comma, run_sf_comma]; simp
  · by_cases h4 : c = '"'
    · subst h4; rw [run_sr_quote, run_sf_quote]
    · rw [run_sr_plain c _ _ _ _ h1 h2 h3 h4, run_sf_plain c _ _ _ _ h1 h2 h3 h4]

theorem encodeRow_head (fields : List String) (h : fields ≠ []) :
    ∃ c cs, joinComma (fields.map (encodeField (fields.length == 1))) = c :: cs ∧
      c ≠ '\n' ∧ c ≠ '\r' := by
  cases fields with
  | nil => exact absurd rfl h
  | cons f fs =>
    cases fs with
    | nil =>
      simp only [List.map_cons, List.map_nil, joinComma]
      by_cases hq : (needsQuote f.data || ((([f] : List String).length == 1) && f.data.isEmpty))
          = true
      · refine ⟨'"', escQ f.data ++ ['"'], ?_, by decide, by decide⟩
        rw [encodeField, if_pos hq]
      · have hq2 : (needsQuote f.data || ((([f] : List String).length == 1) && f.data.isEmpty))
            = false := Bool.eq_false_iff.mpr hq
        obtain ⟨hnq, hbe⟩ := Bool.or_eq_false_iff.mp hq2
        have hde : f.data ≠ [] := by
          intro hd
          rw [hd] at hbe
          simp at hbe
        cases hd : f.data with
        | nil => exact absurd hd hde
        | cons c cs =>
          have hc : special c = false := by
            rw [hd] at hnq
            exact all_not_special hnq c (List.mem_cons_self c cs)
          obtain ⟨_, _, h2, h1⟩ := special_eq_false hc
          refine ⟨c, cs, ?_, h1, h2⟩
          rw [encodeField, if_neg hq, hd]
    | cons g gs =>
      simp only [List.map_cons, joinComma]
      cases he : encodeField (((f :: g :: gs : List String).length == 1)) f with
      | nil =>
        exact ⟨',', joinComma ((g :: gs).map (encodeField ((f :: g :: gs :
          List String).length == 1))), by simp, by decide, by decide⟩
      | cons c cs =>
        have hcn : c ≠ '\n' ∧ c ≠ '\r' := by
          by_cases hq : (needsQuote f.data ||
              ((((f :: g :: gs) : List String).length == 1) && f.data.isEmpty)) = true
          · rw [encodeField, if_pos hq] at he
            have : c = '"' := by
              injection he with h1 _
              exact h1.symm
            subst this
            exact ⟨by decide, by decide⟩
          · rw [encodeField, if_neg hq] at he
            have hq2 : (needsQuote f.data ||
                ((((f :: g :: gs) : List String).length == 1) && f.data.isEmpty)) = false :=
              Bool.eq_false_iff.mpr hq
            obtain ⟨hnq, _⟩ := Bool.or_eq_false_iff.mp hq2
            rw [he] at hnq
            have hc : special c = false := all_not_special hnq c (List.mem_cons_self c cs)
            obtain ⟨_, _, h2, h1⟩ := special_eq_false hc
            exact ⟨h1, h2⟩
        exact ⟨c, cs ++ ',' :: joinComma ((g :: gs).map (encodeField ((f :: g :: gs :
          List String).length == 1))), by simp, hcn.1, hcn.2⟩

theorem row_run (fields : List String) (h : fields ≠ []) (rest : List Char)
    (rows : List (List String)) :
    csvRun .startRecord (encodeRow fields ++ rest) [] [] rows =
      csvRun .startRecord rest [] [] (rows ++ [fields]) := by
  obtain ⟨c, cs, hj, h1, h2⟩ := encodeRow_head fields h
  have hshape : encodeRow fields ++ rest = c :: (cs ++ '\r' :: '\n' :: rest) := by
    rw [encodeRow, hj]
    simp
  rw [hshape, sr_eq_sf c _ _ _ _ h1 h2]
  have hback : (c :: (cs ++ '\r' :: '\n' :: rest)) =
      joinComma (fields.map (encodeField (fields.length == 1))) ++ '\r' :: ('\n' :: rest) := by
    rw [hj]
    simp
  rw [hback, fields_run fields _ [] rows ('\n' :: rest) h, run_acr_lf]
  simp

theorem parse_encode_aux (rowsList : List (List String)) : ∀ acc : List (List String),
    (∀ r ∈ rowsList, r ≠ []) →
    csvRun .startRecord ((rowsList.map encodeRow).flatten) [] [] acc = acc ++ rowsList := by
  induction rowsList with
  | nil => intro acc _; simp [csvRun]
  | cons r rs ih =>
    intro acc h
    simp only [List.map_cons, List.flatten_cons]
    rw [row_run r (h r (List.mem_cons_self r rs)) _ acc]
    rw [ih (acc ++ [r]) (fun x hx => h x (List.mem_cons_of_mem r hx))]
    simp

theorem csvParse_encode (rowsList : List (List String)) (h : ∀ r ∈ rowsList, r ≠ []) :
    csvParse ((rowsList.map encodeRow).flatten) = rowsList := by
  rw [csvParse, parse_encode_aux rowsList [] h]
  simp

theorem csvParse_saveContent (cars : List Car) :
    csvParse (saveContent cars) = headerRow :: cars.map carToRow := by
  have hs : saveContent cars = (((headerRow :: cars.map carToRow).map encodeRow).flatten) := by
    rw [saveContent]
    simp only [List.map_cons, List.flatten_cons, List.map_map]
    rfl
  rw [hs, csvParse_encode]
  intro r hr
  rcases List.mem_cons.mp hr with h | h
  · subst h; simp [headerRow]
  · obtain ⟨c, _, rfl⟩ := List.mem_map.mp (by
      simpa using h)
    simp [carToRow]

/-! ### Round trip of `str()` through `int()` -/

theorem digitChar_toNat {n : Nat} (h : n < 10) : (digitChar n).toNat = 48 + n := by
  interval_cases n <;> decide

theorem isDig_digitChar {n : Nat} (h : n < 10) : isDig (digitChar n) = true := by
  interval_cases n <;> decide

theorem natDigitsAux_digits : ∀ fuel n : Nat, ∀ c ∈ natDigitsAux fuel n, isDig c = true := by
  intro fuel
  induction fuel with
  | zero => intro n c hc; simp [natDigitsAux] at hc
  | succ f ih =>
    intro n c hc
    rw [natDigitsAux] at hc
    by_cases h10 : n < 10
    · rw [if_pos h10] at hc
      simp only [List.mem_singleton] at hc
      subst hc
      exact isDig_digitChar h10
    · rw [if_neg h10] at hc
      rcases List.mem_append.mp hc with h | h
      · exact ih (n / 10) c h
      · simp only [List.mem_singleton] at h
        subst h
        exact isDig_digitChar (Nat.mod_lt n (by norm_num))

theorem natDigitsAux_ne_nil (fuel n : Nat) (h : 0 < fuel) : natDigitsAux fuel n ≠ [] := by
  cases fuel with
  | zero => exact absurd h (by simp)
  | succ f =>
    rw [natDigitsAux]
    by_cases h10 : n < 10
    · rw [if_pos h10]; simp
    · rw [if_neg h10]; simp

theorem natDigits_digits (n : Nat) : ∀ c ∈ natDigits n, isDig c = true :=
  fun c hc => natDigitsAux_digits (n + 1) n c hc

theorem natDigits_ne_nil (n : Nat) : natDigits n ≠ [] :=
  natDigitsAux_ne_nil (n + 1) n (Nat.succ_pos n)

theorem pyDigitsCore_natDigitsAux : ∀ fuel n : Nat, n < fuel →
    ∀ (rest : List Char) (acc : Nat),
    pyDigitsCore false (natDigitsAux fuel n ++ rest) acc =
      pyDigitsCore false rest (acc * 10 ^ (natDigitsAux fuel n).length + n) := by
  intro fuel
  induction fuel with
  | zero => intro n h; omega
  | succ f ih =>
    intro n h rest acc
    by_cases h10 : n < 10
    · rw [natDigitsAux, if_pos h10]
      simp only [List.singleton_append, List.length_singleton, pow_one]
      simp only [pyDigitsCore]
      rw [if_pos (isDig_digitChar h10), digitChar_toNat h10]
      have he : 48 + n - 48 = n := by omega
      rw [he]
    · rw [natDigitsAux, if_neg h10]
      rw [List.append_assoc, List.singleton_append]
      have hlt : n / 10 < f := by omega
      rw [ih (n / 10) hlt]
      have hm10 : n % 10 < 10 := by omega
      simp only [pyDigitsCore]
      rw [if_pos (isDig_digitChar hm10), digitChar_toNat hm10]
      have he : 48 + n % 10 - 48 = n % 10 := by omega
      rw [he, List.length_append, List.length_singleton, pow_succ]
      congr 1
      have h2 : n / 10 * 10 + n % 10 = n := by omega
      generalize (10 : Nat) ^ (natDigitsAux f (n / 10)).length = K
      calc (acc * K + n / 10) * 10 + n % 10
          = acc * (K * 10) + (n / 10 * 10 + n % 10) := by ring
        _ = acc * (K * 10) + n := by rw [h2]

theorem pyDigits_natDigits (n : Nat) : pyDigits (natDigits n) = some n := by
  have hne := natDigits_ne_nil n
  cases hl : natDigits n with
  | nil => exact absurd hl hne
  | cons c cs =>
    have hdig : isDig c = true := natDigits_digits n c (by rw [hl]; exact List.mem_cons_self c cs)
    have hcore := pyDigitsCore_natDigitsAux (n + 1) n (Nat.lt_succ_self n) [] 0
    rw [List.append_nil] at hcore
    rw [show natDigitsAux (n + 1) n = natDigits n from rfl, hl] at hcore
    simp only [pyDigitsCore] at hcore
    rw [if_pos hdig, if_neg (show ¬(false = true) by decide)] at hcore
    have h0 : (0 : Nat) * 10 + (c.toNat - 48) = c.toNat - 48 := by omega
    have h0b : (0 : Nat) * 10 ^ (c :: cs).length + n = n := by simp
    rw [h0, h0b] at hcore
    simp only [pyDigits]
    rw [if_pos hdig]
    exact hcore

theorem dropWhile_all_false {p : Char → Bool} (l : List Char) (h : ∀ c ∈ l, p c = false) :
    l.dropWhile p = l := by
  cases l with
  | nil => rfl
  | cons c cs =>
    rw [List.dropWhile_cons, h c (List.mem_cons_self c cs)]
    simp

theorem stripEnds_all_not_space {l : List Char} (h : ∀ c ∈ l, isPySpace c = false) :
    stripEnds l = l := by
  rw [stripEnds, dropWhile_all_false l h,
    dropWhile_all_false l.reverse (fun c hc => h c (List.mem_reverse.mp hc))]
  exact List.reverse_reverse l

theorem isDig_not_space {c : Char} (h : isDig c = true) : isPySpace c = false := by
  have h48 : 48 ≤ c.toNat := by
    simp only [isDig, Bool.and_eq_true, decide_eq_true_eq] at h
    exact h.1
  refine Bool.eq_false_iff.mpr (fun hs => ?_)
  simp only [isPySpace, Bool.or_eq_true, decide_eq_true_eq] at hs
  rcases hs with ((((h1 | h1) | h1) | h1) | h1) | h1 <;>
    (subst h1; exact absurd h48 (by decide))

theorem isDig_ne_sign {c : Char} (h : isDig c = true) : c ≠ '+' ∧ c ≠ '-' := by
  constructor <;> (rintro rfl; exact absurd h (by decide))

theorem pyIntChars_intChars (y : Int) : pyIntChars (intChars y) = some y := by
  by_cases hy : y < 0
  · rw [intChars, if_pos hy, pyIntChars]
    have hstrip : stripEnds ('-' :: natDigits y.natAbs) = '-' :: natDigits y.natAbs := by
      apply stripEnds_all_not_space
      intro c hc
      rcases List.mem_cons.mp hc with rfl | hc
      · decide
      · exact isDig_not_space (natDigits_digits _ c hc)
    rw [hstrip]
    rw [show pyIntSigned ('-' :: natDigits y.natAbs)
        = (pyDigits (natDigits y.natAbs)).map (fun n : Nat => -(n : Int)) from by
      simp [pyIntSigned]]
    rw [pyDigits_natDigits]
    have hv : -((y.natAbs : Nat) : Int) = y := by omega
    simp only [Option.map_some']
    rw [hv]
  · rw [intChars, if_neg hy, pyIntChars]
    have hstrip : stripEnds (natDigits y.toNat) = natDigits y.toNat :=
      stripEnds_all_not_space (fun c hc => isDig_not_space (natDigits_digits _ c hc))
    rw [hstrip]
    cases hl : natDigits y.toNat with
    | nil => exact absurd hl (natDigits_ne_nil _)
    | cons c cs =>
      have hdig : isDig c = true := natDigits_digits _ c (by
        rw [hl]; exact List.mem_cons_self c cs)
      obtain ⟨hp, hm⟩ := isDig_ne_sign hdig
      rw [show pyIntSigned (c :: cs) = (pyDigits (c :: cs)).map (fun n : Nat => (n : Int)) from by
        simp only [pyIntSigned]
        rw [if_neg hp, if_neg hm]]
      rw [← hl, pyDigits_natDigits]
      have hv : ((y.toNat : Nat) : Int) = y := by omega
      simp only [Option.map_some']
      rw [hv]

theorem pyInt_pyStrInt (y : Int) : pyInt (pyStrInt y) = some y := by
  rw [pyInt, pyStrInt]
  exact pyIntChars_intChars y

/-! ### The row loop of `Garage.load` -/

theorem rowToCar_carToRow (c : Car) : rowToCar (carToRow c) = some c := by
  rw [carToRow]
  simp only [rowToCar]
  rw [pyInt_pyStrInt]
  rfl

theorem loadRows_nil (acc : List Car) : loadRows acc [] = some acc := rfl

theorem loadRows_cons_blank (acc : List Car) (rs : List (List String)) :
    loadRows acc ([] :: rs) = loadRows acc rs := by
  rw [loadRows, if_pos rfl]

theorem loadRows_cons_some {r : List String} (hr : r ≠ []) {c : Car}
    (hc : rowToCar r = some c) (acc : List Car) (rs : List (List String)) :
    loadRows acc (r :: rs) = loadRows (acc ++ [c]) rs := by
  rw [loadRows, if_neg hr, hc]

theorem loadRows_cons_none {r : List String} (hr : r ≠ []) (hc : rowToCar r = none)
    (acc : List Car) (rs : List (List String)) :
    loadRows acc (r :: rs) = none := by
  rw [loadRows, if_neg hr, hc]

theorem loadRows_map (cars : List Car) : ∀ acc : List Car,
    loadRows acc (cars.map carToRow) = some (acc ++ cars) := by
  induction cars with
  | nil => intro acc; simp [loadRows_nil]
  | cons c cs ih =>
    intro acc
    rw [List.map_cons,
      loadRows_cons_some (by simp [carToRow]) (rowToCar_carToRow c) acc,
      ih (acc ++ [c])]
    simp

theorem loadRows_append (rows : List (List String)) : ∀ acc : List Car,
    loadRows acc rows = (loadRows [] rows).map (fun l => acc ++ l) := by
  induction rows with
  | nil => intro acc; simp [loadRows_nil]
  | cons r rs ih =>
    intro acc
    by_cases hr : r = []
    · subst hr
      rw [loadRows_cons_blank, loadRows_cons_blank]
      exact ih acc
    · cases hc : rowToCar r with
      | none => rw [loadRows_cons_none hr hc, loadRows_cons_none hr hc]; rfl
      | some c =>
        rw [loadRows_cons_some hr hc acc, loadRows_cons_some hr hc []]
        simp only [List.nil_append]
        rw [ih (acc ++ [c]), ih [c], Option.map_map]
        congr 1
        funext l
        simp

theorem loadRows_all_blank (rows : List (List String)) (h : ∀ r ∈ rows, r = []) :
    ∀ acc : List Car, loadRows acc rows = some acc := by
  induction rows with
  | nil => intro acc; exact loadRows_nil acc
  | cons r rs ih =>
    intro acc
    have hr : r = [] := h r (List.mem_cons_self r rs)
    subst hr
    rw [loadRows_cons_blank]
    exact ih (fun x hx => h x (List.mem_cons_of_mem _ hx)) acc

theorem rowBad_none {r : List String} (h : rowBad r = true) : rowToCar r = none := by
  cases r with
  | nil => simp [rowBad] at h
  | cons a t =>
    cases t with
    | nil => rfl
    | cons b t2 =>
      cases t2 with
      | nil => rfl
      | cons c3 t3 =>
        cases t3 with
        | nil => rfl
        | cons d t4 =>
          rw [rowBad, Bool.or_eq_true] at h
          rcases h with hlen | hyear
          · rw [decide_eq_true_eq] at hlen
            simp only [List.length_cons] at hlen
            omega
          · simp only [rowToCar]
            rw [Option.isNone_iff_eq_none.mp hyear]
            rfl

theorem rowBad_false_some {r : List String} (hne : r ≠ []) (h : rowBad r = false) :
    ∃ c, rowToCar r = some c := by
  cases r with
  | nil => exact absurd rfl hne
  | cons a t =>
    cases t with
    | nil => simp [rowBad] at h
    | cons b t2 =>
      rw [rowBad, Bool.or_eq_false_iff] at h
      obtain ⟨hlen, hy⟩ := h
      rw [decide_eq_false_iff_not] at hlen
      cases t2 with
      | nil => exact absurd (by simp) hlen
      | cons c3 t3 =>
        cases t3 with
        | nil => exact absurd (by simp) hlen
        | cons d t4 =>
          cases hpy : pyInt b with
          | none => rw [hpy] at hy; exact absurd hy (by decide)
          | some y =>
            refine ⟨⟨a, y, c3, d⟩, ?_⟩
            simp only [rowToCar]
            rw [hpy]
            rfl

theorem loadRows_any_bad (rows : List (List String)) : ∀ acc : List Car,
    rows.any rowBad = true → loadRows acc rows = none := by
  induction rows with
  | nil => intro acc h; simp at h
  | cons r rs ih =>
    intro acc h
    rw [List.any_cons, Bool.or_eq_true] at h
    by_cases hr : r = []
    · subst hr
      rw [loadRows_cons_blank]
      apply ih
      rcases h with h | h
      · exact absurd h (by decide)
      · exact h
    · rcases h with h | h
      · exact loadRows_cons_none hr (rowBad_none h) acc rs
      · cases hb : rowBad r with
        | true => exact loadRows_cons_none hr (rowBad_none hb) acc rs
        | false =>
          obtain ⟨c, hc⟩ := rowBad_false_some hr hb
          rw [loadRows_cons_some hr hc acc]
          exact ih (acc ++ [c]) h

theorem loadContent_cons (g : Garage) (content : List Char) (hdr : List String)
    (rows : List (List String)) (h : csvParse content = hdr :: rows) :
    loadContent g content =
      (match loadRows g.cars rows with
       | some cs => (⟨cs⟩, LoadOutcome.loaded)
       | none => (⟨[]⟩, LoadOutcome.readError)) := by
  rw [loadContent, h]

/-! ### Helper: loading a file produced by `save` -/

theorem load_saveContent (g : Garage) (cars : List Car) :
    Garage.load g (some (saveContent cars)) = (⟨g.cars ++ cars⟩, LoadOutcome.loaded) := by
  simp only [Garage.load]
  rw [loadContent_cons g _ headerRow (cars.map carToRow) (csvParse_saveContent cars),
    loadRows_map cars g.cars]

/-! ### The claims -/

/-- C1: for every non-empty list of cars, saving it and loading the resulting
file into a fresh (empty) `Garage` reproduces exactly the original list, in
order, with every field of every car preserved. -/
theorem c1_save_load_round_trip (cars : List Car) (_hne : cars ≠ []) :
    Garage.load ⟨[]⟩ (some (saveContent cars)) = (⟨cars⟩, LoadOutcome.loaded) := by
  rw [load_saveContent ⟨[]⟩ cars]
  rfl

/-- C1 witness: the round trip at the two-car garage of the repository's own
test fixture. -/
theorem c1_witness :
    Garage.load ⟨[]⟩ (some (saveContent [⟨"Blue", 2020, "Tesla", "Model 3"⟩,
        ⟨"Black", 2023, "Rivian", "R1T"⟩])) =
      (⟨[⟨"Blue", 2020, "Tesla", "Model 3"⟩, ⟨"Black", 2023, "Rivian", "R1T"⟩]⟩,
        LoadOutcome.loaded) :=
  c1_save_load_round_trip
    [⟨"Blue", 2020, "Tesla", "Model 3"⟩, ⟨"Black", 2023, "Rivian", "R1T"⟩] (by simp)

/-- C2 counterexample: a successful load into a garage that already holds a
car appends the file rows after the prior contents (the source appends to
`self.cars` without clearing it), so the in-memory list does not equal the
file's data rows. -/
theorem c2_counterexample :
    Garage.load ⟨[⟨"Red", 2022, "Ford", "Mustang"⟩]⟩
        (some (saveContent [⟨"Blue", 2020, "Tesla", "Model 3"⟩])) =
      (⟨[⟨"Red", 2022, "Ford", "Mustang"⟩, ⟨"Blue", 2020, "Tesla", "Model 3"⟩]⟩,
        LoadOutcome.loaded) ∧
    (⟨[⟨"Red", 2022, "Ford", "Mustang"⟩, ⟨"Blue", 2020, "Tesla", "Model 3"⟩]⟩ : Garage) ≠
      ⟨[⟨"Blue", 2020, "Tesla", "Model 3"⟩]⟩ := by
  constructor
  · decide
  · decide

/-- C2 amended: after a successful load the in-memory list is the prior
contents followed by the file's data rows, in file order; it equals the file
rows exactly only when the garage was empty beforehand. -/
theorem c2_load_appends (g : Garage) (content : List Char) (hdr : List String)
    (rows : List (List String)) (fileCars : List Car)
    (h1 : csvParse content = hdr :: rows) (h2 : loadRows [] rows = some fileCars) :
    Garage.load g (some content) = (⟨g.cars ++ fileCars⟩, LoadOutcome.loaded) := by
  simp only [Garage.load]
  rw [loadContent_cons g content hdr rows h1, loadRows_append rows g.cars, h2]
  rfl

/-- C2 witness: the amended statement at a concrete one-row file loaded into a
garage already holding one car. -/
theorem c2_witness :
    Garage.load ⟨[⟨"Red", 2022, "Ford", "Mustang"⟩]⟩
        (some ("color,year,make,model\nBlue,2020,Tesla,Model 3\n".data)) =
      (⟨[⟨"Red", 2022, "Ford", "Mustang"⟩, ⟨"Blue", 2020, "Tesla", "Model 3"⟩]⟩,
        LoadOutcome.loaded) :=
  c2_load_appends ⟨[⟨"Red", 2022, "Ford", "Mustang"⟩]⟩ _
    ["color", "year", "make", "model"] [["Blue", "2020", "Tesla", "Model 3"]]
    [⟨"Blue", 2020, "Tesla", "Model 3"⟩] (by decide) (by decide)

/-- C3: the `Car` class defines no `__eq__`, so Python `==` on two distinct
`Car` objects is identity comparison and returns `False` even when all four
fields agree — equality is not structural, contradicting both the spec and
the repository's own test `test_save_and_load_cycle`, which asserts
`new_garage.cars == populated_garage.cars` after a reload. -/
theorem c3_car_eq_is_identity :
    pyCarEq ⟨0, ⟨"Red", 2022, "Ford", "Mustang"⟩⟩ ⟨1, ⟨"Red", 2022, "Ford", "Mustang"⟩⟩
        = false ∧
    (PyCarObj.mk 0 ⟨"Red", 2022, "Ford", "Mustang"⟩).val =
      (PyCarObj.mk 1 ⟨"Red", 2022, "Ford", "Mustang"⟩).val :=
  ⟨rfl, rfl⟩

/-- C4 counterexample: `remove_car` is `list.pop`, and Python interprets a
negative index from the end of the list: index `-1` lies outside `[0, 2)` but
removes the last of two cars instead of failing. -/
theorem c4_counterexample :
    Garage.remove_car
        ⟨[⟨"Blue", 2020, "Tesla", "Model 3"⟩, ⟨"Black", 2023, "Rivian", "R1T"⟩]⟩ (-1) =
      some (⟨"Black", 2023, "Rivian", "R1T"⟩, ⟨[⟨"Blue", 2020, "Tesla", "Model 3"⟩]⟩) ∧
    ¬(0 ≤ (-1 : Int) ∧ (-1 : Int) < 2) := by
  constructor
  · decide
  · decide

/-- C4 amended: `remove_car` fails with `IndexError` (no removal, the list is
left unchanged) exactly for indices `i ≥ n` or `i < -n`; a negative index in
`[-n, -1]`, although outside `[0, n)`, is interpreted Python-style from the
end of the list and succeeds. -/
theorem c4_remove_car_oob (g : Garage) (i : Int)
    (h : (g.cars.length : Int) ≤ i ∨ i < -(g.cars.length : Int)) :
    g.remove_car i = none := by
  have hC : ¬(0 ≤ pyIndex i g.cars.length ∧
      pyIndex i g.cars.length < (g.cars.length : Int)) := by
    intro hc
    obtain ⟨hc1, hc2⟩ := hc
    unfold pyIndex at hc1 hc2
    rcases h with h | h <;> split_ifs at hc1 hc2 with hneg <;> omega
  unfold Garage.remove_car pyListPop
  rw [if_neg hC]
  rfl

/-- C4 witness: removing index 99 from the two-car garage of the spec's test
case fails. -/
theorem c4_witness :
    Garage.remove_car
        ⟨[⟨"Blue", 2020, "Tesla", "Model 3"⟩, ⟨"Black", 2023, "Rivian", "R1T"⟩]⟩ 99 = none :=
  c4_remove_car_oob
    ⟨[⟨"Blue", 2020, "Tesla", "Model 3"⟩, ⟨"Black", 2023, "Rivian", "R1T"⟩]⟩ 99 (by decide)

/-- C5: if any data row of an existing file is nonblank with fewer than four
fields or with a year field that is not a valid integer, the whole load is
abandoned: the in-memory list is reset to empty (rows parsed before the
failure, and any prior contents, are discarded) and the error outcome of the
`except` handler is reported. -/
theorem c5_malformed_abandons_load (g : Garage) (content : List Char) (hdr : List String)
    (rows : List (List String)) (h1 : csvParse content = hdr :: rows)
    (h2 : rows.any rowBad = true) :
    Garage.load g (some content) = (⟨[]⟩, LoadOutcome.readError) := by
  simp only [Garage.load]
  rw [loadContent_cons g content hdr rows h1, loadRows_any_bad rows g.cars h2]

/-- C5 witness: the three-field row of the repository's own malformed-file
test abandons the load. -/
theorem c5_witness :
    Garage.load ⟨[]⟩ (some ("color,year,make,model\nRed,2022,Ford".data)) =
      (⟨[]⟩, LoadOutcome.readError) :=
  c5_malformed_abandons_load ⟨[]⟩ _ ["color", "year", "make", "model"]
    [["Red", "2022", "Ford"]] (by decide) (by decide)

/-- C6: a successful save replaces the file wholesale — independently of the
prior file contents — with exactly the literal header line
`color,year,make,model` and then one encoded row per car, fields in the order
color, year, make, model, rows in in-memory order. -/
theorem c6_save_writes_header_then_rows (g : Garage) (prior failFile : Option (List Char)) :
    g.save true prior failFile =
      (g, some (("color,year,make,model\r\n").data
        ++ (g.cars.map (fun c => encodeRow (carToRow c))).flatten)) := by
  have hhdr : encodeRow headerRow = ("color,year,make,model\r\n").data := by decide
  unfold Garage.save saveContent
  rw [hhdr]
  simp

/-- C7: a save attempt, successful or failing with an I/O error, returns the
garage unchanged — the body of `save` never assigns to `self.cars`. -/
theorem c7_save_preserves_cars (g : Garage) (ioOk : Bool)
    (prior failFile : Option (List Char)) :
    (g.save ioOk prior failFile).1 = g := rfl

/-- C8: loading a nonexistent path on a fresh garage leaves the list empty and
reports the distinct not-found outcome, which is not the error outcome of the
`except` handler (the branch the source uses for malformed data and I/O
failures) and not the loaded outcome. -/
theorem c8_load_not_found :
    Garage.load ⟨[]⟩ none = (⟨[]⟩, LoadOutcome.notFound) ∧
    LoadOutcome.notFound ≠ LoadOutcome.readError ∧
    LoadOutcome.notFound ≠ LoadOutcome.loaded :=
  ⟨rfl, by decide, by decide⟩

/-- C9: an existing file whose records are just the header (possibly followed
by blank rows only) loads successfully on a fresh garage to the empty list,
and the reported outcome is not the error outcome. -/
theorem c9_header_only_loads_empty (content : List Char) (hdr : List String)
    (rows : List (List String)) (h1 : csvParse content = hdr :: rows)
    (h2 : ∀ r ∈ rows, r = []) :
    Garage.load ⟨[]⟩ (some content) = (⟨[]⟩, LoadOutcome.loaded) ∧
    LoadOutcome.loaded ≠ LoadOutcome.readError := by
  refine ⟨?_, by decide⟩
  simp only [Garage.load]
  rw [loadContent_cons ⟨[]⟩ content hdr rows h1, loadRows_all_blank rows h2]

/-- C9 witness: the file holding exactly the header line. -/
theorem c9_witness :
    Garage.load ⟨[]⟩ (some ("color,year,make,model\r\n".data)) =
      (⟨[]⟩, LoadOutcome.loaded) ∧
    LoadOutcome.loaded ≠ LoadOutcome.readError :=
  c9_header_only_loads_empty _ ["color", "year", "make", "model"] [] (by decide)
    (by simp)

/-- C10: a data row with more than four fields whose year field is a valid
integer is not treated as malformed: the car is built from the first four
fields and the extra fields are silently ignored, the load succeeding. -/
theorem c10_extra_fields_ignored (g : Garage) (content : List Char) (hdr : List String)
    (c0 c1 c2 c3 : String) (extras : List String) (y : Int)
    (h1 : csvParse content = [hdr, c0 :: c1 :: c2 :: c3 :: extras])
    (h2 : pyInt c1 = some y) :
    Garage.load g (some content) = (⟨g.cars ++ [⟨c0, y, c2, c3⟩]⟩, LoadOutcome.loaded) := by
  simp only [Garage.load]
  rw [loadContent_cons g content hdr [c0 :: c1 :: c2 :: c3 :: extras] h1]
  have hrc : rowToCar (c0 :: c1 :: c2 :: c3 :: extras) = some ⟨c0, y, c2, c3⟩ := by
    simp only [rowToCar]
    rw [h2]
    rfl
  rw [loadRows_cons_some (by simp) hrc g.cars, loadRows_nil]

/-- C10 witness: a five-field row loads as the car of its first four fields. -/
theorem c10_witness :
    Garage.load ⟨[]⟩ (some ("color,year,make,model\nRed,2022,Ford,Mustang,Extra".data)) =
      (⟨[⟨"Red", 2022, "Ford", "Mustang"⟩]⟩, LoadOutcome.loaded) :=
  c10_extra_fields_ignored ⟨[]⟩ _ ["color", "year", "make", "model"]
    "Red" "2022" "Ford" "Mustang" ["Extra"] 2022 (by decide) (by decide)
